import Mathlib

/-!
Verification development for the Huddle signaling relay server (`server.py`).

The server keeps two global dictionaries (`rooms`, `client_states`) guarded by
a single asyncio lock; every registry operation runs atomically with respect to
the others.  We embed the dictionaries as association lists with
replace-or-append insertion (the semantics of Python `dict` assignment),
timestamps as rationals (Python `time.time()` floats), and each handler as a
pure state-transition function returning the handler's observable outputs
(messages sent, rooms dropped, close codes).
-/

namespace Huddle

/-- Connection handles (`ServerConnection` objects) are abstract identifiers. -/
abbrev Conn := Nat

section AssocList

variable {α β : Type} [DecidableEq α]

/-- `dict.get(k)`: first binding of `k`, if any. -/
def lookupA (k : α) : List (α × β) → Option β
  | [] => none
  | (k', v) :: t => if k' = k then some v else lookupA k t

/-- `dict[k] = v`: replace the binding of `k` if present, else append. -/
def insertA (k : α) (v : β) : List (α × β) → List (α × β)
  | [] => [(k, v)]
  | (k', v') :: t => if k' = k then (k, v) :: t else (k', v') :: insertA k v t

/-- `dict.pop(k, None)`: drop every binding of `k` (dict keys are unique). -/
def eraseA (k : α) (l : List (α × β)) : List (α × β) :=
  l.filter (fun p => decide (p.1 ≠ k))

theorem lookupA_mem {k : α} {v : β} : ∀ {l : List (α × β)},
    lookupA k l = some v → (k, v) ∈ l := by
  intro l
  induction l with
  | nil => intro h; simp [lookupA] at h
  | cons p t ih =>
    intro h
    by_cases hk : p.1 = k
    · simp [lookupA, hk] at h
      cases p
      simp_all
    · cases p with
      | mk k' v' =>
        simp only [lookupA, if_neg hk] at h
        exact List.mem_cons_of_mem _ (ih h)

theorem mem_insertA {k : α} {v : β} {p : α × β} : ∀ {l : List (α × β)},
    p ∈ insertA k v l → p = (k, v) ∨ p ∈ l := by
  intro l
  induction l with
  | nil => intro h; simp [insertA] at h; simp [h]
  | cons q t ih =>
    intro h
    cases q with
    | mk k' v' =>
      by_cases hk : k' = k
      · simp only [insertA, if_pos hk] at h
        rcases List.mem_cons.mp h with h1 | h1
        · exact Or.inl h1
        · exact Or.inr (List.mem_cons_of_mem _ h1)
      · simp only [insertA, if_neg hk] at h
        rcases List.mem_cons.mp h with h1 | h1
        · exact Or.inr (List.mem_cons.mpr (Or.inl h1))
        · rcases ih h1 with h2 | h2
          · exact Or.inl h2
          · exact Or.inr (List.mem_cons_of_mem _ h2)

theorem length_insertA_le (k : α) (v : β) : ∀ (l : List (α × β)),
    (insertA k v l).length ≤ l.length + 1 := by
  intro l
  induction l with
  | nil => simp [insertA]
  | cons q t ih =>
    cases q with
    | mk k' v' =>
      by_cases hk : k' = k
      · simp [insertA, hk]
      · simp only [insertA, if_neg hk, List.length_cons]
        omega

theorem insertA_ne_nil (k : α) (v : β) (l : List (α × β)) : insertA k v l ≠ [] := by
  cases l with
  | nil => simp [insertA]
  | cons q t =>
    cases q with
    | mk k' v' =>
      by_cases hk : k' = k <;> simp [insertA, hk]

theorem mem_of_mem_eraseA {k : α} {p : α × β} {l : List (α × β)}
    (h : p ∈ eraseA k l) : p ∈ l :=
  List.mem_of_mem_filter h

theorem length_eraseA_le (k : α) (l : List (α × β)) :
    (eraseA k l).length ≤ l.length :=
  List.length_filter_le _ l

theorem lookupA_eraseA (k : α) : ∀ (l : List (α × β)),
    lookupA (β := β) k (eraseA k l) = none := by
  intro l
  induction l with
  | nil => rfl
  | cons q t ih =>
    cases q with
    | mk k' v' =>
      by_cases hk : k' = k
      · simpa [eraseA, hk] using ih
      · simpa [eraseA, lookupA, hk] using ih

end AssocList

/-! ## Data model (`server.py` module-level state and dataclasses) -/

def MAX_PARTICIPANTS_PER_ROOM : Nat := 4
def MAX_MESSAGES_PER_SECOND : Nat := 50
def ROOM_IDLE_EXPIRY_SECONDS : ℚ := 2 * 60 * 60
def PUBLIC_KEY_CACHE_TTL_SECONDS : ℚ := 60

/-- `@dataclass Room`: member connections mapped to client ids, plus the
activity timestamp. -/
structure Room where
  clients : List (Conn × String)
  lastActive : ℚ
  deriving DecidableEq

/-- `@dataclass ClientState`: the per-connection session. -/
structure ClientState where
  roomCode : String
  clientId : String
  messageTimes : List ℚ
  deriving DecidableEq

/-- The two module-level registries `rooms` and `client_states`. -/
structure ServerState where
  rooms : List (String × Room)
  clientStates : List (Conn × ClientState)
  deriving DecidableEq

def initialState : ServerState := ⟨[], []⟩

inductive JoinResult
  | ok
  | roomFull
  deriving DecidableEq

/-- `handle_join`: create the room if absent, reject with `room_full` when at
capacity, else insert the member, stamp `last_active`, and create the session. -/
def handleJoin (s : ServerState) (conn : Conn) (roomCode clientId : String)
    (now : ℚ) : ServerState × JoinResult :=
  match lookupA roomCode s.rooms with
  | none =>
    ({ rooms := insertA roomCode ⟨[(conn, clientId)], now⟩ s.rooms,
       clientStates := insertA conn ⟨roomCode, clientId, []⟩ s.clientStates },
     .ok)
  | some room =>
    if room.clients.length ≥ MAX_PARTICIPANTS_PER_ROOM then
      (s, .roomFull)
    else
      ({ rooms := insertA roomCode ⟨insertA conn clientId room.clients, now⟩ s.rooms,
         clientStates := insertA conn ⟨roomCode, clientId, []⟩ s.clientStates },
       .ok)

/-- `remove_client`: pop the session; if present, drop the member from its room,
deleting the room when it became empty, else notify the remaining members
(`peer_left` carrying the departed client id). -/
def removeClient (s : ServerState) (conn : Conn) (now : ℚ) :
    ServerState × List (Conn × String) :=
  match lookupA conn s.clientStates with
  | none => (s, [])
  | some st =>
    let cs' := eraseA conn s.clientStates
    match lookupA st.roomCode s.rooms with
    | none => ({ s with clientStates := cs' }, [])
    | some room =>
      let clients' := eraseA conn room.clients
      if clients' = [] then
        ({ rooms := eraseA st.roomCode s.rooms, clientStates := cs' }, [])
      else
        ({ rooms := insertA st.roomCode ⟨clients', now⟩ s.rooms,
           clientStates := cs' },
         clients'.map (fun p => (p.1, st.clientId)))

/-- `relay_to_room`: touch the room and fan the raw message out to every other
current member.  The returned list is the attempted sends `(peer, message)`. -/
def relayToRoom (s : ServerState) (conn : Conn) (msg : String) (now : ℚ) :
    ServerState × List (Conn × String) :=
  match lookupA conn s.clientStates with
  | none => (s, [])
  | some st =>
    match lookupA st.roomCode s.rooms with
    | none => (s, [])
    | some room =>
      ({ s with rooms := insertA st.roomCode { room with lastActive := now } s.rooms },
       ((room.clients.map Prod.fst).filter (fun p => decide (p ≠ conn))).map
         (fun p => (p, msg)))

/-- `safe_send` swallows per-peer failures: given the set `F` of peers whose
send raises, exactly the sends to peers outside `F` are delivered and the
fan-out still completes. -/
def deliveredSends (sends : List (Conn × String)) (F : List Conn) :
    List (Conn × String) :=
  sends.filter (fun x => decide (x.1 ∉ F))

/-- The `while` eviction loop of `over_rate_limit`: drop entries older than one
second from the front of the window. -/
def evictOld (now : ℚ) : List ℚ → List ℚ
  | [] => []
  | t :: rest => if now - t > 1 then evictOld now rest else t :: rest

/-- `over_rate_limit`: evict old entries, report `True` (limited) when the
window is already at the cap, else append the current timestamp. -/
def overRateLimit (now : ℚ) (w : List ℚ) : Bool × List ℚ :=
  let w1 := evictOld now w
  if w1.length ≥ MAX_MESSAGES_PER_SECOND then (true, w1) else (false, w1 ++ [now])

/-- The message-loop body of `handle_connection`: rate-limit check, then relay.
Returns the messages relayed (empty when rate-limited or the session is gone). -/
def handleMessage (s : ServerState) (conn : Conn) (msg : String) (now : ℚ) :
    ServerState × List (Conn × String) :=
  match lookupA conn s.clientStates with
  | none => (s, [])
  | some st =>
    let r := overRateLimit now st.messageTimes
    let s1 : ServerState :=
      { s with clientStates := insertA conn { st with messageTimes := r.2 } s.clientStates }
    if r.1 then (s1, []) else relayToRoom s1 conn msg now

/-- Connections of the rooms listed by a sweep. -/
def flatConns : List (String × List Conn) → List Conn
  | [] => []
  | x :: t => x.2 ++ flatConns t

/-- One tick of `cleanup_idle_rooms`: under the lock, collect every room whose
`last_active` is older than the idle TTL, pop the sessions of their members and
the rooms themselves; the collected list is returned for the out-of-band
closes. -/
def cleanupSweep (s : ServerState) (now : ℚ) :
    ServerState × List (String × List Conn) :=
  let toDrop := (s.rooms.filter
      (fun p => decide (now - p.2.lastActive > ROOM_IDLE_EXPIRY_SECONDS))).map
      (fun p => (p.1, p.2.clients.map Prod.fst))
  let dropped := flatConns toDrop
  ({ rooms := s.rooms.filter
        (fun p => decide (¬ now - p.2.lastActive > ROOM_IDLE_EXPIRY_SECONDS)),
     clientStates := s.clientStates.filter (fun p => decide (p.1 ∉ dropped)) },
   toDrop)

/-- The closes issued after a sweep: every evicted connection is closed with
code `4000` (`room_idle_expired`). -/
def sweepCloses (s : ServerState) (now : ℚ) : List (Conn × Nat) :=
  (flatConns (cleanupSweep s now).2).map (fun c => (c, 4000))

/-! ## Reachability: the registry is only mutated by these four handlers. -/

inductive Event
  | join (conn : Conn) (roomCode clientId : String) (now : ℚ)
  | leave (conn : Conn) (now : ℚ)
  | message (conn : Conn) (msg : String) (now : ℚ)
  | sweep (now : ℚ)
  deriving DecidableEq

def stepEvent (s : ServerState) : Event → ServerState
  | .join conn roomCode clientId now => (handleJoin s conn roomCode clientId now).1
  | .leave conn now => (removeClient s conn now).1
  | .message conn msg now => (handleMessage s conn msg now).1
  | .sweep now => (cleanupSweep s now).1

/-- The registry state after a trace of events, starting from empty registries. -/
def runEvents (evs : List Event) : ServerState :=
  evs.foldl stepEvent initialState

/-! ## Token verifier (`fetch_public_key` / `verify_jwt`)

`jwt.decode(token, key, ...)` is embedded as an oracle
`decode : String → String → DecodeResult` distinguishing the three outcomes the
code distinguishes: success with a payload, `ExpiredSignatureError`, and any
other `InvalidTokenError`.  A network fetch of `GET /public_key` is embedded as
an `Option String`: `some k` is a response carrying key `k`, `none` is an
exception (the `except` branch returns `""` and leaves the cache untouched). -/

inductive DecodeResult
  | ok (payload : String)
  | expired
  | invalid
  deriving DecidableEq

/-- The module-level cache `PUBLIC_KEY_PEM` / `PUBLIC_KEY_LAST_FETCHED_AT`;
`pem = ""` stands for both the initial `None` and an empty string (both falsy). -/
structure KeyCache where
  pem : String
  lastFetched : ℚ
  deriving DecidableEq

/-- `fetch_public_key(force_refresh)`: return the cached key when it is
non-empty and within the 60s TTL (unless forced); otherwise hit the auth
server, updating the cache on success and returning `""` on failure. -/
def fetchPublicKey (force : Bool) (fetchOutcome : Option String) (now : ℚ)
    (c : KeyCache) : String × KeyCache :=
  if force = false ∧ c.pem ≠ "" ∧ now - c.lastFetched < PUBLIC_KEY_CACHE_TTL_SECONDS then
    (c.pem, c)
  else
    match fetchOutcome with
    | some k => (k, ⟨k, now⟩)
    | none => ("", c)

/-- `verify_jwt`: decode under the (possibly cached) key; on a non-expiry
failure force one refresh and retry once iff the refreshed key is non-empty and
different; expiry is never retried.  `f1`/`f2` are the outcomes of the fetches
the two `fetch_public_key` calls would perform. -/
def verifyJwt (decode : String → String → DecodeResult) (token : String)
    (f1 f2 : Option String) (now : ℚ) (c : KeyCache) :
    Option String × KeyCache :=
  let r1 := fetchPublicKey false f1 now c
  if r1.1 = "" then (none, r1.2)
  else
    match decode token r1.1 with
    | .ok payload => (some payload, r1.2)
    | .expired => (none, r1.2)
    | .invalid =>
      let r2 := fetchPublicKey true f2 now r1.2
      if r2.1 ≠ "" ∧ r2.1 ≠ r1.1 then
        match decode token r2.1 with
        | .ok payload => (some payload, r2.2)
        | .expired => (none, r2.2)
        | .invalid => (none, r2.2)
      else (none, r2.2)

/-! ## Handshake parsing (`sanitize_room_code` / `sanitize_client_id` /
`parse_query` / the required-parameter check of `handle_connection`) -/

/-- Python `str.strip()` on the character list: drop whitespace from both ends. -/
def stripChars (l : List Char) : List Char :=
  ((l.dropWhile Char.isWhitespace).reverse.dropWhile Char.isWhitespace).reverse

/-- Python `str.strip()`. -/
def pyStrip (s : String) : String := ⟨stripChars s.data⟩

/-- Python `str.upper()`. -/
def pyUpper (s : String) : String := ⟨s.data.map Char.toUpper⟩

/-- `sanitize_room_code`: `None`/empty is rejected, else strip, upper-case and
bound the length by 64. -/
def sanitize_room_code (raw : Option String) : Option String :=
  match raw with
  | none => none
  | some r =>
    if r = "" then none
    else
      let room := pyUpper (pyStrip r)
      if room.length > 64 then none else some room

/-- `sanitize_client_id`: `None`/empty is rejected, else strip and bound the
length by 128. -/
def sanitize_client_id (raw : Option String) : Option String :=
  match raw with
  | none => none
  | some r =>
    if r = "" then none
    else
      let clientId := pyStrip r
      if clientId.length > 128 then none else some clientId

/-- `parse_query` feeding the `room_code is None or client_id is None or
token is None` gate of `handle_connection`: the connection proceeds to
authentication exactly when the check yields `some`. -/
def handshakeCheck (roomRaw clientRaw token : Option String) :
    Option (String × String × String) :=
  match sanitize_room_code roomRaw, sanitize_client_id clientRaw, token with
  | some r, some c, some t => some (r, c, t)
  | _, _, _ => none

/-- A decode oracle under which every token verifies against every key. -/
def alwaysOkDecode : String → String → DecodeResult := fun _ _ => .ok "claims"

/-- A decode oracle for a rotated key pair: tokens verify only under `NEW`. -/
def rotatedDecode : String → String → DecodeResult :=
  fun _ k => if k = "NEW" then .ok "payload" else .invalid

/-- A decode oracle whose tokens are always expired. -/
def alwaysExpiredDecode : String → String → DecodeResult := fun _ _ => .expired

/-- A decode oracle: invalid under the old key, expired under `K2`. -/
def expiredAfterRotateDecode : String → String → DecodeResult :=
  fun _ k => if k = "K2" then .expired else .invalid

/-- Modelled from the spec's words for C4 (refinement comparison only): append
the current timestamp, evict entries older than one second from the front, and
report limited exactly when the resulting window size meets or exceeds the
cap. -/
def specRecordAndCheck (now : ℚ) (w : List ℚ) : Bool × List ℚ :=
  let w2 := evictOld now (w ++ [now])
  (decide (w2.length ≥ MAX_MESSAGES_PER_SECOND), w2)

/-! ## Theorems -/

theorem removeClient_of_lookup_none {s : ServerState} {conn : Conn} (now : ℚ)
    (h : lookupA conn s.clientStates = none) : removeClient s conn now = (s, []) := by
  simp [removeClient, h]

theorem lookup_after_removeClient (s : ServerState) (conn : Conn) (now : ℚ) :
    lookupA conn (removeClient s conn now).1.clientStates = none := by
  unfold removeClient
  cases h : lookupA conn s.clientStates with
  | none => simpa using h
  | some st =>
    cases h2 : lookupA st.roomCode s.rooms with
    | none => simp [h2, lookupA_eraseA]
    | some room =>
      by_cases he : eraseA conn room.clients = [] <;>
        simp [h2, he, lookupA_eraseA]

/-- C9: connection teardown is idempotent: after `remove_client` has run for a
connection, running it again leaves both registries unchanged and emits no
further `peer_left` notification. -/
theorem teardown_idempotent (s : ServerState) (conn : Conn) (now now' : ℚ) :
    removeClient (removeClient s conn now).1 conn now' = ((removeClient s conn now).1, []) :=
  removeClient_of_lookup_none now' (lookup_after_removeClient s conn now)

/-- C10: a non-empty but whitespace-only `room` parameter sanitizes to the
empty string instead of being rejected, and likewise a whitespace-only
`clientId`, so the handshake's required-parameter check passes and the
connection is admitted into the room whose code is `""`. -/
theorem whitespace_params_admitted (w w' t : String)
    (hw : w ≠ "") (hsw : pyStrip w = "")
    (hw' : w' ≠ "") (hsw' : pyStrip w' = "") :
    sanitize_room_code (some w) = some "" ∧
    sanitize_client_id (some w') = some "" ∧
    handshakeCheck (some w) (some w') (some t) = some ("", "", t) := by
  have h1 : sanitize_room_code (some w) = some "" := by
    simp only [sanitize_room_code, if_neg hw, hsw]
    rfl
  have h2 : sanitize_client_id (some w') = some "" := by
    simp only [sanitize_client_id, if_neg hw', hsw']
    rfl
  refine ⟨h1, h2, ?_⟩
  simp [handshakeCheck, h1, h2]

theorem whitespace_params_admitted_witness :
    sanitize_room_code (some " ") = some "" ∧
    sanitize_client_id (some "\t") = some "" ∧
    handshakeCheck (some " ") (some "\t") (some "tok") = some ("", "", "tok") :=
  whitespace_params_admitted " " "\t" "tok" (by decide) (by decide) (by decide) (by decide)

/-- C2: an accepted message from a member is fanned out verbatim: every
attempted send carries the exact message and targets a current member of the
sender's room other than the sender; every such member is targeted; and a peer
whose send fails does not prevent delivery to the other peers. -/
theorem relay_fanout_exact (s : ServerState) (conn : Conn) (st : ClientState)
    (room : Room) (msg : String) (now : ℚ) (F : List Conn)
    (hst : lookupA conn s.clientStates = some st)
    (hroom : lookupA st.roomCode s.rooms = some room) :
    (∀ x ∈ (relayToRoom s conn msg now).2,
        x.2 = msg ∧ x.1 ∈ room.clients.map Prod.fst ∧ x.1 ≠ conn) ∧
    (∀ p, p ∈ room.clients.map Prod.fst → p ≠ conn →
        (p, msg) ∈ (relayToRoom s conn msg now).2) ∧
    (∀ p, p ∈ room.clients.map Prod.fst → p ≠ conn → p ∉ F →
        (p, msg) ∈ deliveredSends (relayToRoom s conn msg now).2 F) := by
  have hsends : (relayToRoom s conn msg now).2 =
      ((room.clients.map Prod.fst).filter (fun p => decide (p ≠ conn))).map
        (fun p => (p, msg)) := by
    simp [relayToRoom, hst, hroom]
  refine ⟨?_, ?_, ?_⟩
  · intro x hx
    rw [hsends] at hx
    rcases List.mem_map.mp hx with ⟨p, hp, hxp⟩
    rcases List.mem_filter.mp hp with ⟨hpm, hpc⟩
    refine ⟨?_, ?_, ?_⟩
    · rw [← hxp]
    · rw [← hxp]; exact hpm
    · rw [← hxp]; simpa using hpc
  · intro p hp hpc
    rw [hsends]
    exact List.mem_map.mpr ⟨p, List.mem_filter.mpr ⟨hp, by simpa using hpc⟩, rfl⟩
  · intro p hp hpc hpf
    have hmem : (p, msg) ∈ (relayToRoom s conn msg now).2 := by
      rw [hsends]
      exact List.mem_map.mpr ⟨p, List.mem_filter.mpr ⟨hp, by simpa using hpc⟩, rfl⟩
    exact List.mem_filter.mpr ⟨hmem, by simpa using hpf⟩

theorem relay_fanout_exact_witness :
    ((2 : Conn), "hello") ∈
      (relayToRoom ⟨[("R", ⟨[(1, "a"), (2, "b"), (3, "c")], 0⟩)],
        [(1, ⟨"R", "a", []⟩)]⟩ 1 "hello" 7).2 := by
  have h := relay_fanout_exact
    ⟨[("R", ⟨[(1, "a"), (2, "b"), (3, "c")], 0⟩)], [(1, ⟨"R", "a", []⟩)]⟩
    1 ⟨"R", "a", []⟩ ⟨[(1, "a"), (2, "b"), (3, "c")], 0⟩ "hello" 7 []
    (by simp [lookupA]) (by simp [lookupA])
  exact h.2.1 2 (by simp) (by simp)

/-! ### Token verifier claims -/

/-- C3 counterexample: cached key `K` is 100s old (past the 60s TTL), the
refresh fetch fails, and the token is valid under `K` — yet `verify_jwt`
returns `None` (the stale key is not used), while the cache does keep `K`. -/
theorem stale_key_fetch_failure_cex :
    alwaysOkDecode "t" "K" = .ok "claims" ∧
    verifyJwt alwaysOkDecode "t" none none 100 ⟨"K", 0⟩ = (none, ⟨"K", 0⟩) := by
  constructor
  · rfl
  · norm_num [verifyJwt, fetchPublicKey, PUBLIC_KEY_CACHE_TTL_SECONDS]

/-- C3 (amended): if the cached key is past its 60s TTL and the refresh fetch
fails, the cached key is left in place (the cache is unchanged, not cleared),
but it is not used for that verification: the call returns `Unauthenticated`
regardless of whether the token is valid under the old key. -/
theorem key_refresh_failure_rejects (decode : String → String → DecodeResult)
    (token : String) (f2 : Option String) (now : ℚ) (c : KeyCache)
    (hpem : c.pem ≠ "")
    (hstale : PUBLIC_KEY_CACHE_TTL_SECONDS ≤ now - c.lastFetched) :
    verifyJwt decode token none f2 now c = (none, c) := by
  have hlt : ¬ now - c.lastFetched < PUBLIC_KEY_CACHE_TTL_SECONDS := not_lt.mpr hstale
  simp [verifyJwt, fetchPublicKey, hlt]

theorem key_refresh_failure_rejects_witness :
    verifyJwt alwaysOkDecode "w" none none 200 ⟨"OLD", 100⟩ = (none, ⟨"OLD", 100⟩) :=
  key_refresh_failure_rejects alwaysOkDecode "w" none 200 ⟨"OLD", 100⟩
    (by decide) (by norm_num [PUBLIC_KEY_CACHE_TTL_SECONDS])

/-- C5: an expired-but-validly-signed token is rejected with no key refresh
(the cache is untouched and the outcome does not depend on any fetch), and the
retry path after a successful forced refresh likewise rejects an expired
token. -/
theorem expired_token_always_rejected (decode : String → String → DecodeResult)
    (token : String) (f1 f2 : Option String) (now : ℚ) (c : KeyCache)
    (hfresh : c.pem ≠ "" ∧ now - c.lastFetched < PUBLIC_KEY_CACHE_TTL_SECONDS) :
    (decode token c.pem = .expired → verifyJwt decode token f1 f2 now c = (none, c)) ∧
    (∀ k, decode token c.pem = .invalid → k ≠ "" → k ≠ c.pem →
        decode token k = .expired →
        verifyJwt decode token f1 (some k) now c = (none, ⟨k, now⟩)) := by
  obtain ⟨hpem, hlt⟩ := hfresh
  constructor
  · intro hdec
    simp [verifyJwt, fetchPublicKey, hpem, hlt, hdec]
  · intro k hdec hk hkne hexp
    simp [verifyJwt, fetchPublicKey, hpem, hlt, hdec, hk, hkne, hexp]

theorem expired_token_always_rejected_witness :
    verifyJwt alwaysExpiredDecode "t" none none 10 ⟨"K1", 0⟩ = (none, ⟨"K1", 0⟩) ∧
    verifyJwt expiredAfterRotateDecode "t" none (some "K2") 10 ⟨"K1", 0⟩ =
      (none, ⟨"K2", 10⟩) := by
  constructor
  · exact (expired_token_always_rejected alwaysExpiredDecode "t" none none 10 ⟨"K1", 0⟩
      ⟨by decide, by norm_num [PUBLIC_KEY_CACHE_TTL_SECONDS]⟩).1 rfl
  · exact (expired_token_always_rejected expiredAfterRotateDecode "t" none (some "K2") 10
      ⟨"K1", 0⟩ ⟨by decide, by norm_num [PUBLIC_KEY_CACHE_TTL_SECONDS]⟩).2 "K2"
      (by decide) (by decide) (by decide) (by decide)

/-- C6: when the token fails under the cached key for a non-expiry reason, the
verifier forces a refresh and the outcome is that of one retry under the
freshly fetched key; in particular a token that verifies under the fresh key
is accepted and its claims returned. -/
theorem stale_key_retry_accepts (decode : String → String → DecodeResult)
    (token : String) (f1 : Option String) (k : String) (now : ℚ) (c : KeyCache)
    (hfresh : c.pem ≠ "" ∧ now - c.lastFetched < PUBLIC_KEY_CACHE_TTL_SECONDS)
    (hdec : decode token c.pem = .invalid) (hk : k ≠ "") :
    (verifyJwt decode token f1 (some k) now c).1 =
      (match decode token k with
       | .ok payload => some payload
       | .expired => none
       | .invalid => none) := by
  obtain ⟨hpem, hlt⟩ := hfresh
  by_cases hkc : k = c.pem
  · subst hkc
    simp [verifyJwt, fetchPublicKey, hpem, hlt, hdec]
  · cases hdk : decode token k with
    | ok payload => simp [verifyJwt, fetchPublicKey, hpem, hlt, hdec, hk, hkc, hdk]
    | expired => simp [verifyJwt, fetchPublicKey, hpem, hlt, hdec, hk, hkc, hdk]
    | invalid => simp [verifyJwt, fetchPublicKey, hpem, hlt, hdec, hk, hkc, hdk]

theorem stale_key_retry_accepts_witness :
    (verifyJwt rotatedDecode "t" none (some "NEW") 10 ⟨"OLD", 0⟩).1 = some "payload" := by
  have h := stale_key_retry_accepts rotatedDecode "t" none "NEW" 10 ⟨"OLD", 0⟩
    ⟨by decide, by norm_num [PUBLIC_KEY_CACHE_TTL_SECONDS]⟩ (by decide) (by decide)
  simpa [rotatedDecode] using h

/-! ### Rate limiter claim -/

theorem evictOld_eq_dropWhile (now : ℚ) : ∀ w : List ℚ,
    evictOld now w = w.dropWhile (fun t => decide (now - t > 1)) := by
  intro w
  induction w with
  | nil => rfl
  | cons t rest ih =>
    by_cases h : now - t > 1
    · simp [evictOld, List.dropWhile, h, ih]
    · simp [evictOld, List.dropWhile, h]

/-- C4 counterexample: with 49 timestamps inside the trailing second, the
window size resulting from appending the 50th would meet the cap of 50 — the
claim then demands `limited` — yet `over_rate_limit` returns allowed and
appends, giving a window of 50 (the code rejects only from the 51st message
on, and does not append when it rejects). -/
theorem rate_limit_threshold_cex :
    (specRecordAndCheck 0 (List.replicate 49 0)).1 = true ∧
    (overRateLimit 0 (List.replicate 49 0)).1 = false ∧
    (overRateLimit 0 (List.replicate 49 0)).2.length = 50 ∧
    (overRateLimit 0 (List.replicate 50 0)).1 = true ∧
    (overRateLimit 0 (List.replicate 50 0)).2.length = 50 := by
  refine ⟨?_, ?_, ?_, ?_, ?_⟩ <;>
    norm_num [specRecordAndCheck, overRateLimit, evictOld, MAX_MESSAGES_PER_SECOND,
      List.replicate]

/-- C4 (amended): the check first evicts entries older than one second from
the front of the window; it returns limited exactly when the evicted window
already holds at least the cap of 50 entries, in which case the timestamp is
not appended; otherwise it appends the current timestamp and returns
allowed. -/
theorem rate_limit_check_behavior (now : ℚ) (w : List ℚ) :
    ((overRateLimit now w).1 = true ↔
        MAX_MESSAGES_PER_SECOND ≤ (w.dropWhile (fun t => decide (now - t > 1))).length) ∧
    ((overRateLimit now w).1 = false →
        (overRateLimit now w).2 =
          w.dropWhile (fun t => decide (now - t > 1)) ++ [now]) ∧
    ((overRateLimit now w).1 = true →
        (overRateLimit now w).2 = w.dropWhile (fun t => decide (now - t > 1))) := by
  rw [show overRateLimit now w =
      (let w1 := w.dropWhile (fun t => decide (now - t > 1));
       if w1.length ≥ MAX_MESSAGES_PER_SECOND then (true, w1) else (false, w1 ++ [now]))
    from by rw [overRateLimit, evictOld_eq_dropWhile]]
  by_cases h : (w.dropWhile (fun t => decide (now - t > 1))).length ≥ MAX_MESSAGES_PER_SECOND
  · simp [h]
  · simp [h]

theorem rate_limit_check_behavior_witness :
    (overRateLimit 5 [(0 : ℚ), 5]).2 = [5, 5] := by
  have h := (rate_limit_check_behavior 5 [(0 : ℚ), 5]).2.1
    (by norm_num [overRateLimit, evictOld, MAX_MESSAGES_PER_SECOND])
  rw [h]
  norm_num [List.dropWhile]

/-! ### Idle reaper claim -/

theorem mem_flatConns {c : Conn} : ∀ {l : List (String × List Conn)},
    c ∈ flatConns l ↔ ∃ p ∈ l, c ∈ p.2 := by
  intro l
  induction l with
  | nil => simp [flatConns]
  | cons x t ih => simp [flatConns, ih]

/-- C7: a sweep removes from the registry exactly the rooms whose
`last_active` is older than the 2-hour TTL (rooms with recent activity are
untouched), removes exactly the sessions of the evicted rooms' members, and
issues a close with code `4000` for every evicted member's connection. -/
theorem idle_sweep_exact (s : ServerState) (now : ℚ) :
    (∀ code room, (code, room) ∈ (cleanupSweep s now).1.rooms ↔
        ((code, room) ∈ s.rooms ∧
          now - room.lastActive ≤ ROOM_IDLE_EXPIRY_SECONDS)) ∧
    (∀ c, c ∈ flatConns (cleanupSweep s now).2 ↔
        (∃ code room, (code, room) ∈ s.rooms ∧
          now - room.lastActive > ROOM_IDLE_EXPIRY_SECONDS ∧
          c ∈ room.clients.map Prod.fst)) ∧
    (∀ conn st, (conn, st) ∈ (cleanupSweep s now).1.clientStates ↔
        ((conn, st) ∈ s.clientStates ∧ conn ∉ flatConns (cleanupSweep s now).2)) ∧
    (∀ x ∈ sweepCloses s now, x.2 = 4000) ∧
    (∀ c, c ∈ flatConns (cleanupSweep s now).2 → (c, 4000) ∈ sweepCloses s now) := by
  have hdrop : (cleanupSweep s now).2 =
      (s.rooms.filter
        (fun p => decide (now - p.2.lastActive > ROOM_IDLE_EXPIRY_SECONDS))).map
        (fun p => (p.1, p.2.clients.map Prod.fst)) := rfl
  refine ⟨?_, ?_, ?_, ?_, ?_⟩
  · intro code room
    simp only [cleanupSweep, List.mem_filter, decide_eq_true_eq, not_lt]
  · intro c
    rw [mem_flatConns, hdrop]
    constructor
    · rintro ⟨p, hp, hc⟩
      rcases List.mem_map.mp hp with ⟨q, hq, rfl⟩
      rcases List.mem_filter.mp hq with ⟨hqm, hqs⟩
      exact ⟨q.1, q.2, hqm, by simpa using hqs, hc⟩
    · rintro ⟨code, room, hmem, hstale, hc⟩
      exact ⟨(code, room.clients.map Prod.fst),
        List.mem_map.mpr ⟨(code, room),
          List.mem_filter.mpr ⟨hmem, by simpa using hstale⟩, rfl⟩, hc⟩
  · intro conn st
    simp only [cleanupSweep, List.mem_filter, decide_eq_true_eq]
  · intro x hx
    rcases List.mem_map.mp hx with ⟨c, _, rfl⟩
    rfl
  · intro c hc
    exact List.mem_map.mpr ⟨c, hc, rfl⟩

/-! ### Registry invariants over reachable states -/

/-- Any room present after one handler step either descends from a room of the
previous state (same members, one member inserted below capacity, or one
member erased leaving the room non-empty) or is a fresh one-member room. -/
theorem stepEvent_rooms_shape (s : ServerState) (e : Event) (c : String) (r : Room)
    (hmem : (c, r) ∈ (stepEvent s e).rooms) :
    (∃ r', (c, r') ∈ s.rooms ∧
      (r.clients = r'.clients ∨
       (∃ conn cid, r.clients = insertA conn cid r'.clients ∧
          r'.clients.length < MAX_PARTICIPANTS_PER_ROOM) ∨
       (∃ conn, r.clients = eraseA conn r'.clients ∧ r.clients ≠ []))) ∨
    (∃ conn cid, r.clients = [(conn, cid)]) := by
  cases e with
  | join conn code cid now =>
    simp only [stepEvent] at hmem
    unfold handleJoin at hmem
    split at hmem
    · dsimp only at hmem
      rcases mem_insertA hmem with he | hm
      · simp only [Prod.mk.injEq] at he
        obtain ⟨he1, he2⟩ := he
        subst he1
        subst he2
        exact Or.inr ⟨conn, cid, rfl⟩
      · exact Or.inl ⟨r, hm, Or.inl rfl⟩
    next room hl =>
      split at hmem
      · exact Or.inl ⟨r, hmem, Or.inl rfl⟩
      next hfull =>
        dsimp only at hmem
        rcases mem_insertA hmem with he | hm
        · simp only [Prod.mk.injEq] at he
          obtain ⟨he1, he2⟩ := he
          subst he1
          subst he2
          exact Or.inl ⟨room, lookupA_mem hl,
            Or.inr (Or.inl ⟨conn, cid, rfl, by omega⟩)⟩
        · exact Or.inl ⟨r, hm, Or.inl rfl⟩
  | leave conn now =>
    simp only [stepEvent] at hmem
    unfold removeClient at hmem
    split at hmem
    · exact Or.inl ⟨r, hmem, Or.inl rfl⟩
    next st hst =>
      dsimp only at hmem
      split at hmem
      · exact Or.inl ⟨r, hmem, Or.inl rfl⟩
      next room hroom =>
        split at hmem
        · exact Or.inl ⟨r, mem_of_mem_eraseA hmem, Or.inl rfl⟩
        next hne =>
          dsimp only at hmem
          rcases mem_insertA hmem with he | hm
          · simp only [Prod.mk.injEq] at he
            obtain ⟨he1, he2⟩ := he
            subst he1
            subst he2
            exact Or.inl ⟨room, lookupA_mem hroom,
              Or.inr (Or.inr ⟨conn, rfl, hne⟩)⟩
          · exact Or.inl ⟨r, hm, Or.inl rfl⟩
  | message conn msg now =>
    simp only [stepEvent] at hmem
    unfold handleMessage at hmem
    split at hmem
    · exact Or.inl ⟨r, hmem, Or.inl rfl⟩
    next st hst =>
      dsimp only at hmem
      split at hmem
      · exact Or.inl ⟨r, hmem, Or.inl rfl⟩
      · unfold relayToRoom at hmem
        split at hmem
        · exact Or.inl ⟨r, hmem, Or.inl rfl⟩
        next st' hst' =>
          split at hmem
          · exact Or.inl ⟨r, hmem, Or.inl rfl⟩
          next room hroom =>
            dsimp only at hmem
            rcases mem_insertA hmem with he | hm
            · simp only [Prod.mk.injEq] at he
              obtain ⟨he1, he2⟩ := he
              subst he1
              subst he2
              exact Or.inl ⟨room, lookupA_mem hroom, Or.inl rfl⟩
            · exact Or.inl ⟨r, hm, Or.inl rfl⟩
  | sweep now =>
    simp only [stepEvent] at hmem
    unfold cleanupSweep at hmem
    dsimp only at hmem
    exact Or.inl ⟨r, List.mem_of_mem_filter hmem, Or.inl rfl⟩

theorem foldl_rooms_pred (P : Room → Prop)
    (hP1 : ∀ conn cid now, P ⟨[(conn, cid)], now⟩)
    (hstep : ∀ (r r' : Room), P r' →
      (r.clients = r'.clients ∨
       (∃ conn cid, r.clients = insertA conn cid r'.clients ∧
          r'.clients.length < MAX_PARTICIPANTS_PER_ROOM) ∨
       (∃ conn, r.clients = eraseA conn r'.clients ∧ r.clients ≠ [])) → P r) :
    ∀ (evs : List Event) (s : ServerState),
      (∀ c r, (c, r) ∈ s.rooms → P r) →
      ∀ c r, (c, r) ∈ (evs.foldl stepEvent s).rooms → P r := by
  intro evs
  induction evs with
  | nil => intro s hs c r hmem; exact hs c r hmem
  | cons e t ih =>
    intro s hs c r hmem
    refine ih (stepEvent s e) ?_ c r hmem
    intro c' r' hmem'
    rcases stepEvent_rooms_shape s e c' r' hmem' with ⟨r0, hr0, hshape⟩ | ⟨conn, cid, hr⟩
    · exact hstep r' r0 (hs c' r0 hr0) hshape
    · exact hstep r' ⟨[(conn, cid)], 0⟩ (hP1 conn cid 0) (Or.inl (by rw [hr]))

theorem idle_sweep_exact_witness :
    ((7 : Conn), 4000) ∈
      sweepCloses ⟨[("S", ⟨[(7, "g")], 0⟩)], [(7, ⟨"S", "g", []⟩)]⟩ 10000 := by
  have h := (idle_sweep_exact ⟨[("S", ⟨[(7, "g")], 0⟩)], [(7, ⟨"S", "g", []⟩)]⟩ 10000).2.2.2.2
  refine h 7 ?_
  refine ((idle_sweep_exact ⟨[("S", ⟨[(7, "g")], 0⟩)], [(7, ⟨"S", "g", []⟩)]⟩ 10000).2.1 7).mpr ?_
  exact ⟨"S", ⟨[(7, "g")], 0⟩, by simp, by norm_num [ROOM_IDLE_EXPIRY_SECONDS], by simp⟩

/-- C1: in every reachable registry state each room has at most 4 members, and
a join on a room that already has 4 members returns `room_full` and leaves the
whole state — in particular that room's membership — unchanged. -/
theorem room_capacity_bound :
    (∀ (evs : List Event) (code : String) (room : Room),
        (code, room) ∈ (runEvents evs).rooms →
        room.clients.length ≤ MAX_PARTICIPANTS_PER_ROOM) ∧
    (∀ (s : ServerState) (conn : Conn) (code cid : String) (now : ℚ) (room : Room),
        lookupA code s.rooms = some room →
        room.clients.length = MAX_PARTICIPANTS_PER_ROOM →
        handleJoin s conn code cid now = (s, .roomFull)) := by
  constructor
  · intro evs code room hmem
    refine foldl_rooms_pred (fun r => r.clients.length ≤ MAX_PARTICIPANTS_PER_ROOM)
      (fun conn cid now => by simp [MAX_PARTICIPANTS_PER_ROOM]) ?_ evs initialState
      (by intro c r h; simp [initialState] at h) code room hmem
    intro r r' hP hshape
    rcases hshape with he | ⟨conn, cid, he, hlt⟩ | ⟨conn, he, _⟩
    · rw [he]; exact hP
    · rw [he]
      calc (insertA conn cid r'.clients).length ≤ r'.clients.length + 1 :=
            length_insertA_le conn cid r'.clients
        _ ≤ MAX_PARTICIPANTS_PER_ROOM := by omega
    · rw [he]
      exact le_trans (length_eraseA_le conn r'.clients) hP
  · intro s conn code cid now room hl hfull
    unfold handleJoin
    rw [hl]
    simp only [ge_iff_le, hfull, le_refl, if_pos]

theorem room_capacity_bound_witness :
    handleJoin ⟨[("R", ⟨[(1, "a"), (2, "b"), (3, "c"), (4, "d")], 0⟩)], []⟩
        9 "R" "x" 5 =
      (⟨[("R", ⟨[(1, "a"), (2, "b"), (3, "c"), (4, "d")], 0⟩)], []⟩, .roomFull) :=
  room_capacity_bound.2 ⟨[("R", ⟨[(1, "a"), (2, "b"), (3, "c"), (4, "d")], 0⟩)], []⟩
    9 "R" "x" 5 ⟨[(1, "a"), (2, "b"), (3, "c"), (4, "d")], 0⟩
    (by simp [lookupA]) rfl

/-- C8: in every reachable registry state no registered room has zero members:
rooms appear only together with their first member and disappear atomically on
last leave or idle sweep. -/
theorem no_empty_rooms (evs : List Event) (code : String) (room : Room)
    (hmem : (code, room) ∈ (runEvents evs).rooms) : 1 ≤ room.clients.length := by
  refine foldl_rooms_pred (fun r => 1 ≤ r.clients.length)
    (fun conn cid now => by simp) ?_ evs initialState
    (by intro c r h; simp [initialState] at h) code room hmem
  intro r r' hP hshape
  rcases hshape with he | ⟨conn, cid, he, _⟩ | ⟨conn, he, hne⟩
  · rw [he]; exact hP
  · rw [he]
    exact List.length_pos.mpr (insertA_ne_nil conn cid r'.clients)
  · exact List.length_pos.mpr hne

theorem no_empty_rooms_witness :
    1 ≤ (Room.mk [(1, "a")] 0).clients.length :=
  no_empty_rooms [.join 1 "R" "a" 0] "R" ⟨[(1, "a")], 0⟩
    (by simp [runEvents, stepEvent, handleJoin, initialState, lookupA, insertA])

end Huddle
